import Mathlib

/-!
Verification of the TEASPN SDK server core (document synchronization and
capability dispatch layer) against its specification.

The Python sources embedded here:
  * `server/protocol.py`        — protocol data model (NamedTuples);
  * `server/teaspn_handler.py`  — `TeaspnHandler`: document state, position/offset
    arithmetic, line index, word lookup;
  * `server/handler_impl_sample.py` — `TeaspnHandlerSample`: sample capability
    provider (highlighting, diagnostics, quick fix, completion);
  * `server/teaspn_server.py`   — `TeaspnServer`: JSON-RPC method dispatch.

Document text is modelled as `List Char` (Python `str` over code points);
offsets and line numbers are `Nat` (the protocol's positions are non-negative).
Python operations that can raise `IndexError` are modelled with `Option`.
-/

namespace Teaspn

/-- Model of `Position` from `protocol.py`: zero-based line and character. -/
structure Position where
  line : Nat
  character : Nat
deriving DecidableEq, Repr

/-- Model of `Range` from `protocol.py`: a start and end `Position`.
(`end` is a Lean keyword, so the field is named `stop`.) -/
structure Range where
  start : Position
  stop : Position
deriving DecidableEq, Repr

/-- Model of `Location` from `protocol.py`. -/
structure Location where
  uri : String
  range : Range
deriving DecidableEq, Repr

/-- Model of `SyntaxHighlight` from `protocol.py`: range, a type tag, and an optional
hover message (built from document text, hence `List Char`). -/
structure SyntaxHighlight where
  range : Range
  type : String
  hoverMessage : Option (List Char) := none
deriving DecidableEq, Repr

/-- Model of `DiagnosticSeverity` constants from `protocol.py`. -/
def DiagnosticSeverity.Error : Nat := 1

/-- Model of `Diagnostic` from `protocol.py`.  A Python `NamedTuple`: equality and
hashing are by field values.  `code` is `Union[int, str]` in the source. -/
structure Diagnostic where
  range : Range
  message : List Char
  severity : Option Nat := none
  code : Option (Nat ⊕ String) := none
  source : Option String := none
deriving DecidableEq, Repr

/-- Model of `TextEdit` from `protocol.py`. -/
structure TextEdit where
  range : Range
  newText : List Char
deriving DecidableEq, Repr

/-- Model of `WorkspaceEdit` from `protocol.py`: mapping from document uri to edits.
The sample handler uses `self._uri` (possibly `None`) as the key, so the key
type is `Option String`. -/
structure WorkspaceEdit where
  changes : List (Option String × List TextEdit)
deriving DecidableEq, Repr

/-- Model of `Command` from `protocol.py`.  The only arguments the repository ever
passes are `WorkspaceEdit`s, so `arguments` is modelled at that type. -/
structure Command where
  title : List Char
  command : String
  arguments : Option (List WorkspaceEdit) := none
deriving DecidableEq, Repr

/-- Model of `CodeAction` from `protocol.py`. -/
structure CodeAction where
  title : List Char
  kind : Option String := none
  edit : Option WorkspaceEdit := none
  command : Option Command := none
deriving DecidableEq, Repr

/-- Model of `CompletionItem` from `protocol.py` (fields the sample handler uses). -/
structure CompletionItem where
  label : List Char
deriving DecidableEq, Repr

/-- Model of `CompletionList` from `protocol.py`. -/
structure CompletionList where
  isIncomplete : Bool
  items : List CompletionItem
deriving DecidableEq, Repr

/-- Model of `Hover` from `protocol.py`. -/
structure Hover where
  contents : List Char
  range : Option Range := none
deriving DecidableEq, Repr

/-- The mutable state of a `TeaspnHandler` (fields set in
`TeaspnHandler.__init__`) together with the `_diag_to_replacements`
mapping of the sample subclass `TeaspnHandlerSample.__init__`.
The mapping is an association list; `diagRegister` below models Python
dict assignment (lookup finds the most recent binding). -/
structure HandlerState where
  line_offsets : List Nat
  uri : Option String
  text : List Char
  diagMap : List (Diagnostic × List (List Char))
deriving DecidableEq, Repr

/-- The state built by `TeaspnHandlerSample.__init__` /
`TeaspnHandler.__init__`: `_line_offsets = [0]`, `_uri = None`,
`_text = ""`, `_diag_to_replacements = {}`. -/
def freshState : HandlerState :=
  { line_offsets := [0], uri := none, text := [], diagMap := [] }

/-- Offsets (+1) of the newline characters of the text, in order; `i` is the
index of the head of the remaining list in the full text.  Models
`[m.start() + 1 for m in re.finditer('\n', text)]`. -/
def newlineOffsetsAux : List Char → Nat → List Nat
  | [], _ => []
  | c :: rest, i =>
      if c = '\n' then (i + 1) :: newlineOffsetsAux rest (i + 1)
      else newlineOffsetsAux rest (i + 1)

/-- Model of `TeaspnHandler._recompute_line_offsets`:
`self._line_offsets = [0] + [m.start() + 1 for m in re.finditer('\n', self._text)]`. -/
def recomputeLineOffsets (text : List Char) : List Nat :=
  0 :: newlineOffsetsAux text 0

/-- Model of `TeaspnHandler._position_to_offset`:
`return self._line_offsets[position.line] + position.character`.
`none` models the `IndexError` raised when `position.line` is not a valid
index of `_line_offsets`. -/
def positionToOffset (st : HandlerState) (position : Position) : Option Nat :=
  match st.line_offsets.get? position.line with
  | some o => some (o + position.character)
  | none => none

/-- The loop of `TeaspnHandler._offset_to_position`: scan `_line_offsets`
with index `i`, and at the first element `n > offset` take `line = i - 1`;
if no element exceeds `offset`, `line` keeps its initial value `0`.
(Since `_line_offsets` always starts with `0` and `offset ≥ 0`, the first
element never triggers the branch, so Python's `-1` is unreachable and
truncated subtraction is faithful.) -/
def findLineAux : List Nat → Nat → Nat → Nat
  | [], _, _ => 0
  | n :: rest, i, offset =>
      if n > offset then i - 1 else findLineAux rest (i + 1) offset

/-- Model of `TeaspnHandler._offset_to_position`, exactly as written in the source:
after the scan, `character = offset - line` (the source subtracts the line
*number*, not the line start offset). -/
def offsetToPosition (st : HandlerState) (offset : Nat) : Position :=
  let line := findLineAux st.line_offsets 0 offset
  { line := line, character := offset - line }

/-- Modelled from the spec: `offsetToPosition(offset)` "finds the greatest
`line` such that `lineStarts[line] <= offset`; `character = offset -
lineStarts[line]`" (§4.1).  This is the reference the handler's
`_offset_to_position` is compared against; `none` when no line qualifies. -/
def specOffsetToPosition (st : HandlerState) (offset : Nat) : Option Position :=
  match (st.line_offsets.enum.filter (fun p => p.2 ≤ offset)).getLast? with
  | some (i, o) => some { line := i, character := offset - o }
  | none => none

/-- Model of `TeaspnHandler.initialize_document`: store uri and text, recompute the
line index. -/
def initializeDocument (st : HandlerState) (uri : String) (text : List Char) :
    HandlerState :=
  { st with uri := some uri, text := text,
            line_offsets := recomputeLineOffsets text }

/-- Model of `TeaspnHandler.update_document`: resolve both range ends to offsets,
splice (`self._text[:start_offset] + text + self._text[end_offset:]`, with
Python slice clamping), recompute the line index.  `none` models the
`IndexError` from `_position_to_offset`, raised before any mutation. -/
def updateDocument (st : HandlerState) (range : Range) (text : List Char) :
    Option HandlerState :=
  match positionToOffset st range.start, positionToOffset st range.stop with
  | some s, some e =>
      let newText := st.text.take s ++ text ++ st.text.drop e
      some { st with text := newText,
                     line_offsets := recomputeLineOffsets newText }
  | _, _ => none

/-- Model of `TeaspnHandler._get_text`: slice between the two resolved offsets
(`self._text[start_offset:end_offset]`). -/
def getText (st : HandlerState) (range : Range) : Option (List Char) :=
  match positionToOffset st range.start, positionToOffset st range.stop with
  | some s, some e => some ((st.text.take e).drop s)
  | _, _ => none

/-- Model of `TeaspnHandler._get_line`: with sentinel `_line_offsets + [len(text)]`,
return `text[sentinel[line] : sentinel[line+1]]`; `none` models the
`IndexError` on an out-of-range line. -/
def getLine (st : HandlerState) (line : Nat) : Option (List Char) :=
  let sent := st.line_offsets ++ [st.text.length]
  match sent.get? line, sent.get? (line + 1) with
  | some a, some b => some ((st.text.take b).drop a)
  | _, _ => none

/-- Python slice `cs[s:e]`. -/
def sliceText (cs : List Char) (s e : Nat) : List Char :=
  (cs.take e).drop s

/-- A word-constituent character, the regex class `\w` (the repository's
documents are ASCII, where `\w = [A-Za-z0-9_]`). -/
def wordChar (c : Char) : Bool :=
  c.isAlphanum || c = '_'

/-- The spans `(start, stop)` (stop exclusive) of the matches of
`re.finditer(r'\w+', ...)`, i.e. the maximal runs of word characters, in
order.  `i` is the index in the full string of the head of the remaining
list; the third argument carries the start of the run in progress, if any. -/
def wordRunsAux : List Char → Nat → Option Nat → List (Nat × Nat)
  | [], _, none => []
  | [], i, some s => [(s, i)]
  | c :: rest, i, none =>
      if wordChar c then wordRunsAux rest (i + 1) (some i)
      else wordRunsAux rest (i + 1) none
  | c :: rest, i, some s =>
      if wordChar c then wordRunsAux rest (i + 1) (some s)
      else (s, i) :: wordRunsAux rest (i + 1) none

/-- Spans of the maximal runs of word characters of `cs`
(`list(re.finditer(r'\w+', cs))`, keeping `(m.start(), m.end())`). -/
def wordRuns (cs : List Char) : List (Nat × Nat) :=
  wordRunsAux cs 0 none

/-- Model of `TeaspnHandler._get_word_at`: take the cursor line, scan its `\w+`
matches, return the first whose span contains `position.character`
*inclusive of both boundaries* (`match.start() <= position.character <=
match.end()` in the source).  The outer `Option` models the `IndexError` of
`_get_line` on a bad line; the inner one is the handler's `None` when no
word matches. -/
def getWordAt (st : HandlerState) (position : Position) :
    Option (Option (List Char)) :=
  match getLine st position.line with
  | none => none
  | some line =>
      match (wordRuns line).find?
          (fun r => r.1 ≤ position.character && position.character ≤ r.2) with
      | some r => some (some (sliceText line r.1 r.2))
      | none => some none

/-- Python `str.splitlines()` restricted to `'\n'` separators (the only line
break the repository produces): pieces between newlines, with no trailing
empty piece for a trailing newline, and `[]` for the empty string. -/
def splitlinesAux : List Char → List Char → List (List Char)
  | [], acc => if acc.isEmpty then [] else [acc.reverse]
  | c :: rest, acc =>
      if c = '\n' then acc.reverse :: splitlinesAux rest []
      else splitlinesAux rest (c :: acc)

/-- Model of `self._text.splitlines()`. -/
def splitlines (cs : List Char) : List (List Char) :=
  splitlinesAux cs []

/-- Python `str.split()` with no separator: the maximal whitespace-free
pieces, dropping all whitespace; `[]` when the string is empty or all
whitespace. -/
def pySplitAux : List Char → List Char → List (List Char)
  | [], acc => if acc.isEmpty then [] else [acc.reverse]
  | c :: rest, acc =>
      if c.isWhitespace then
        if acc.isEmpty then pySplitAux rest []
        else acc.reverse :: pySplitAux rest []
      else pySplitAux rest (c :: acc)

/-- Model of `context.split()`. -/
def pySplit (cs : List Char) : List (List Char) :=
  pySplitAux cs []

/-- Models Python `str.lower()` (ASCII inputs). -/
def lowerStr (cs : List Char) : List Char :=
  cs.map Char.toLower

/-- Model of `PRONOUNS` from `TeaspnHandlerSample.get_diagnostics`. -/
def PRONOUNS : List (List Char) :=
  ["i", "you", "we", "she", "he", "they", "it"].map String.data

/-- Model of `BE_VERBS` from `TeaspnHandlerSample.get_diagnostics`. -/
def BE_VERBS : List (List Char) :=
  ["am", "are", "is", "were", "was"].map String.data

/-- Model of `VALID_COMBINATIONS` from `TeaspnHandlerSample.get_diagnostics`.  The
Python values are sets; they are modelled as lists in literal order (the
set of elements is what the code's membership tests and comprehension use;
CPython's set iteration order is unspecified).  The Python dict is only
ever indexed at pronouns, where it is defined; `[]` is the value on the
unreachable other keys. -/
def validCombinations (w : List Char) : List (List Char) :=
  if w = "i".data then ["am", "was"].map String.data
  else if w = "you".data then ["are", "were"].map String.data
  else if w = "we".data then ["are", "were"].map String.data
  else if w = "she".data then ["is", "was"].map String.data
  else if w = "he".data then ["is", "was"].map String.data
  else if w = "they".data then ["are", "were"].map String.data
  else if w = "it".data then ["is", "was"].map String.data
  else []

/-- The diagnostic `TeaspnHandlerSample.get_diagnostics` builds for the word
pair at spans `m1`, `m2` on line `lineId`:
range `(line_id, m1.start)`–`(line_id, m2.end)`, severity `Error`,
message `'Wrong agreement: {w1} {w2}'`. -/
def mkAgreementDiagnostic (lineId : Nat) (m1 m2 : Nat × Nat) (w1 w2 : List Char) :
    Diagnostic :=
  { range := { start := { line := lineId, character := m1.1 },
               stop := { line := lineId, character := m2.2 } },
    severity := some DiagnosticSeverity.Error,
    message := "Wrong agreement: ".data ++ w1 ++ [' '] ++ w2 }

/-- The `(diagnostic, replacements)` pairs `get_diagnostics` produces for one
line: adjacent `\w+` matches `zip(matches, matches[1:])` where the first
word is a pronoun, the second a be-verb, and the combination invalid.  The
replacements are `[f'{w1} {verb}' for verb in VALID_COMBINATIONS[w1.lower()]]`. -/
def diagEntriesForLine (lineId : Nat) (lineText : List Char) :
    List (Diagnostic × List (List Char)) :=
  let ms := wordRuns lineText
  (ms.zip ms.tail).filterMap (fun m =>
    let w1 := sliceText lineText m.1.1 m.1.2
    let w2 := sliceText lineText m.2.1 m.2.2
    if lowerStr w1 ∈ PRONOUNS ∧ lowerStr w2 ∈ BE_VERBS ∧
        lowerStr w2 ∉ validCombinations (lowerStr w1) then
      some (mkAgreementDiagnostic lineId m.1 m.2 w1 w2,
            (validCombinations (lowerStr w1)).map (fun verb => w1 ++ [' '] ++ verb))
    else none)

/-- All `(diagnostic, replacements)` pairs of one `get_diagnostics` pass over
the current text (`for line_id, line_text in enumerate(self._text.splitlines())`). -/
def diagEntries (text : List Char) : List (Diagnostic × List (List Char)) :=
  (splitlines text).enum.flatMap (fun p => diagEntriesForLine p.1 p.2)

/-- Python dict assignment `self._diag_to_replacements[diagnostic] = replacements`,
modelled by consing onto the association list: lookup (below) finds the most
recent binding, which is exactly the dict's lookup behaviour.  Keys compare
by `Diagnostic` field values, as Python `NamedTuple` keys do. -/
def diagRegister (m : List (Diagnostic × List (List Char))) (k : Diagnostic)
    (v : List (List Char)) : List (Diagnostic × List (List Char)) :=
  (k, v) :: m

/-- Python dict lookup `self._diag_to_replacements[diag]`; `none` models the
`KeyError` on an unregistered key. -/
def diagLookup (m : List (Diagnostic × List (List Char))) (k : Diagnostic) :
    Option (List (List Char)) :=
  (m.find? (fun p => decide (p.1 = k))).map Prod.snd

/-- Model of `TeaspnHandlerSample.get_diagnostics`: returns the diagnostics of the
current text, and registers each with its replacements in
`_diag_to_replacements` (which is never cleared). -/
def getDiagnostics (st : HandlerState) : List Diagnostic × HandlerState :=
  let entries := diagEntries st.text
  (entries.map Prod.fst,
   { st with diagMap := entries.foldl (fun m p => diagRegister m p.1 p.2) st.diagMap })

/-- One quick-fix `CodeAction` of `TeaspnHandlerSample.run_quick_fix`:
workspace edit replacing the diagnostic's range by `repl` in document
`self._uri`, wrapped in a `refactor.rewrite` command. -/
def mkQuickFixAction (uri : Option String) (d : Diagnostic) (repl : List Char) :
    CodeAction :=
  let edit : WorkspaceEdit := ⟨[(uri, [⟨d.range, repl⟩])]⟩
  { title := "Quick fix: ".data ++ repl,
    kind := some "quickfix",
    command := some { title := "Quick fix: ".data ++ repl,
                      command := "refactor.rewrite",
                      arguments := some [edit] } }

/-- Model of `TeaspnHandlerSample.run_quick_fix`: for each given diagnostic, look up
its registered replacements (`self._diag_to_replacements[diag]`; `none`
models the uncaught `KeyError` when a diagnostic was never registered) and
emit one quick-fix action per replacement.  The `range` parameter is unused,
as in the source. -/
def runQuickFix (st : HandlerState) (range : Range) (diags : List Diagnostic) :
    Option (List CodeAction) :=
  match diags.mapM (fun d => (diagLookup st.diagMap d).map (fun repls => (d, repls))) with
  | some pairs =>
      some (pairs.flatMap (fun p => p.2.map (fun repl => mkQuickFixAction st.uri p.1 repl)))
  | none => none

/-- Whether a `\w+` match is a match of `\b[A-Z]+\b`: the run consists
entirely of capital letters (a maximal word run flanked by word boundaries
matches `\b[A-Z]+\b` exactly when all its characters are in `[A-Z]`). -/
def capsRun (cs : List Char) (r : Nat × Nat) : Bool :=
  (sliceText cs r.1 r.2).all Char.isUpper

/-- Whether a `\w+` match is a match of `\b[0-9]+\b`. -/
def digitRun (cs : List Char) (r : Nat × Nat) : Bool :=
  (sliceText cs r.1 r.2).all Char.isDigit

/-- Model of `TeaspnHandlerSample.highlight_syntax`: per line, highlights for the
matches of `\b[A-Z]+\b` (type `'blue'`, hover `'ALL CAPS: …'`) followed by
those of `\b[0-9]+\b` (type `'red'`, hover `'numbers: …'`). -/
def highlightSyntax (st : HandlerState) : List SyntaxHighlight :=
  (splitlines st.text).enum.flatMap (fun p =>
    ((wordRuns p.2).filter (capsRun p.2)).map (fun r =>
      { range := { start := { line := p.1, character := r.1 },
                   stop := { line := p.1, character := r.2 } },
        type := "blue",
        hoverMessage := some ("ALL CAPS: ".data ++ sliceText p.2 r.1 r.2) })
    ++ ((wordRuns p.2).filter (digitRun p.2)).map (fun r =>
      { range := { start := { line := p.1, character := r.1 },
                   stop := { line := p.1, character := r.2 } },
        type := "red",
        hoverMessage := some ("numbers: ".data ++ sliceText p.2 r.1 r.2) }))

/-- Model of `COMPLETION_WORDS` from `TeaspnHandlerSample.get_completion_list`. -/
def COMPLETION_WORDS : List (List Char) :=
  ["Assam", "Chai", "Darjeeling", "Earl Grey", "Jasmine", "Matcha",
   "Oolong", "Puerh"].map String.data

/-- Model of `TeaspnHandlerSample.get_completion_list`: resolve the cursor to an
offset, take `context = self._text[:offset]`, take the last whitespace-token
`context.split()[-1]`, and return the completion words it prefixes.
`none` models the uncaught `IndexError`: either from `_position_to_offset`
(invalid line) or from `context.split()[-1]` when `context.split()` is empty. -/
def getCompletionList (st : HandlerState) (position : Position) :
    Option CompletionList :=
  match positionToOffset st position with
  | none => none
  | some off =>
      let context := st.text.take off
      match (pySplit context).getLast? with
      | none => none
      | some query =>
          some { isIncomplete := true,
                 items := (COMPLETION_WORDS.filter (fun w => query.isPrefixOf w)).map
                   (fun w => { label := w }) }

/-- Model of `TeaspnHandlerSample.hover`: the word at the cursor, or `None`.  The
outer `Option` models the `IndexError` of `_get_line`; `\w+` matches are
nonempty, so Python's `if not word` is exactly the `None` test. -/
def hoverImpl (st : HandlerState) (position : Position) : Option (Option Hover) :=
  match getWordAt st position with
  | none => none
  | some none => some none
  | some (some w) => some (some { contents := "word: ".data ++ w })

/-- The per-session state of `TeaspnServer.__init__` that the claims
concern: the handler, and the `self._shutdown` flag (set to `False` in
`__init__` and — per the source — never written or read again). -/
structure ServerState where
  handler : HandlerState
  shutdown : Bool
deriving DecidableEq, Repr

/-- A fresh `TeaspnServer` over a fresh sample handler (`main()`):
`self._shutdown = False`. -/
def initServerState : ServerState :=
  { handler := freshState, shutdown := false }

/-- The inbound protocol methods modelled (the routing entries of
`TeaspnServer` the claims need). -/
inductive Request
  | didOpen (uri : String) (text : List Char)
  | hoverReq (position : Position)
  | shutdownReq
deriving DecidableEq, Repr

/-- The outcomes the modelled methods can produce.  There is no rejection
or error constructor: no method of `TeaspnServer` consults `_shutdown` or
any initialization state, and none has a rejection branch. -/
inductive Response
  | null
  | publishDiagnostics (uri : Option String) (diags : List Diagnostic)
  | hoverResult (h : Option Hover)
deriving DecidableEq, Repr

/-- Method dispatch of `TeaspnServer`, as the source defines it:
`m_shutdown` is `return None` (no state change, no flag update, no check);
`m_text_document__did_open` initializes the document, recomputes diagnostics
and publishes them; `m_text_document__hover` queries the handler.  The outer
`Option` models an uncaught Python exception inside a handler call. -/
def handleRequest (st : ServerState) : Request → Option (ServerState × Response)
  | .didOpen uri text =>
      let h1 := initializeDocument st.handler uri text
      let r := getDiagnostics h1
      some ({ st with handler := r.2 }, .publishDiagnostics (some uri) r.1)
  | .hoverReq position =>
      match hoverImpl st.handler position with
      | some h => some (st, .hoverResult h)
      | none => none
  | .shutdownReq => some (st, .null)

/-! ## Lemmas about the line index -/

theorem newlineOffsetsAux_length (cs : List Char) :
    ∀ i, (newlineOffsetsAux cs i).length = cs.count '\n' := by
  induction cs with
  | nil => intro i; simp [newlineOffsetsAux]
  | cons c rest ih =>
      intro i
      by_cases hc : c = '\n'
      · subst hc
        simp [newlineOffsetsAux, ih, List.count_cons]
      · simp [newlineOffsetsAux, hc, ih, List.count_cons]

theorem recomputeLineOffsets_length (text : List Char) :
    (recomputeLineOffsets text).length = text.count '\n' + 1 := by
  simp [recomputeLineOffsets, newlineOffsetsAux_length]

/-! ## The claims -/

/-- C1: the claim states that `_offset_to_position` returns the position with
the greatest line such that `lineStarts[line] ≤ offset` and
`character = offset - lineStarts[line]`.  The code does not: on the document
`"ab\ncd"` (line starts `[0, 3]`) at the in-bounds offset `4` it yields
`(line 0, character 4)` — the scan falls through to `line = 0` when the
offset lies on the last line, and `character` subtracts the line *number* —
whereas the specified result is `(line 1, character 1)`. -/
theorem offsetToPosition_c1_divergence :
    offsetToPosition (initializeDocument freshState "file:///doc" "ab\ncd".data) 4
        = { line := 0, character := 4 } ∧
    specOffsetToPosition (initializeDocument freshState "file:///doc" "ab\ncd".data) 4
        = some { line := 1, character := 1 } ∧
    4 ≤ "ab\ncd".data.length ∧
    ({ line := 0, character := 4 } : Position) ≠ { line := 1, character := 1 } := by
  refine ⟨by decide, by decide, by decide, by decide⟩

/-- C2: the claimed round-trip laws fail on the code.  On the document
`"ab\ncd\nef"`: the valid position `(1, 0)` maps to offset `3`, but
`offsetToPosition 3` returns `(1, 2)`; the valid offset `4` maps to position
`(1, 3)`, but `positionToOffset (1, 3)` returns `6`. -/
theorem roundtrip_c2_divergence :
    positionToOffset (initializeDocument freshState "file:///doc" "ab\ncd\nef".data)
        { line := 1, character := 0 } = some 3 ∧
    offsetToPosition (initializeDocument freshState "file:///doc" "ab\ncd\nef".data) 3
        = { line := 1, character := 2 } ∧
    ({ line := 1, character := 2 } : Position) ≠ { line := 1, character := 0 } ∧
    offsetToPosition (initializeDocument freshState "file:///doc" "ab\ncd\nef".data) 4
        = { line := 1, character := 3 } ∧
    positionToOffset (initializeDocument freshState "file:///doc" "ab\ncd\nef".data)
        { line := 1, character := 3 } = some 6 ∧
    (6 : Nat) ≠ 4 ∧ 4 ≤ "ab\ncd\nef".data.length := by
  refine ⟨by decide, by decide, by decide, by decide, by decide, by decide, by decide⟩

/-- C3: the claim states `update_document` fails with OutOfBounds when a
resolved offset exceeds the text length, leaving the state untouched.  The
code has no such check: on document `"abc"` (length 3) the change range
`(0,5)–(0,6)` resolves to offsets `5` and `6`, both beyond the text, yet the
update succeeds (Python slicing clamps silently) and commits the text
`"abcX"`. -/
theorem updateDocument_c3_divergence :
    positionToOffset (initializeDocument freshState "file:///doc" "abc".data)
        { line := 0, character := 5 } = some 5 ∧
    (initializeDocument freshState "file:///doc" "abc".data).text.length = 3 ∧
    (updateDocument (initializeDocument freshState "file:///doc" "abc".data)
        { start := { line := 0, character := 5 }, stop := { line := 0, character := 6 } }
        "X".data).map (fun s => s.text) = some "abcX".data ∧
    "abcX".data ≠ "abc".data := by
  refine ⟨by decide, by decide, by decide, by decide⟩

/-- C4: after `initialize_document`, and after every `update_document` that
returns (an out-of-range line raises before any mutation), the line index is
exactly `recomputeLineOffsets` of the current text, starts with `0`, and has
length equal to the number of `'\n'` characters in the text plus one. -/
theorem lineIndex_invariant_c4 (st : HandlerState) (uri : String) (text : List Char)
    (rng : Range) (t : List Char) :
    ((initializeDocument st uri text).line_offsets
        = recomputeLineOffsets (initializeDocument st uri text).text ∧
     (initializeDocument st uri text).line_offsets.head? = some 0 ∧
     (initializeDocument st uri text).line_offsets.length = text.count '\n' + 1) ∧
    ∀ st', updateDocument st rng t = some st' →
      st'.line_offsets = recomputeLineOffsets st'.text ∧
      st'.line_offsets.head? = some 0 ∧
      st'.line_offsets.length = st'.text.count '\n' + 1 := by
  constructor
  · exact ⟨rfl, rfl, recomputeLineOffsets_length text⟩
  · intro st' h
    unfold updateDocument at h
    cases hs : positionToOffset st rng.start with
    | none => rw [hs] at h; exact absurd h (by simp)
    | some s =>
        cases he : positionToOffset st rng.stop with
        | none => rw [hs, he] at h; exact absurd h (by simp)
        | some e =>
            rw [hs, he] at h
            simp only [Option.some.injEq] at h
            subst h
            exact ⟨rfl, rfl, recomputeLineOffsets_length _⟩

/-- Witness for C4 at a concrete successful update: replacing range
`(0,0)–(0,1)` of `"abc"` with `"X\n"`. -/
theorem lineIndex_invariant_c4_witness :
    updateDocument (initializeDocument freshState "file:///doc" "abc".data)
        { start := { line := 0, character := 0 }, stop := { line := 0, character := 1 } }
        "X\n".data
      = some { line_offsets := [0, 2], uri := some "file:///doc",
               text := "X\nbc".data, diagMap := [] } ∧
    ([0, 2] : List Nat) = recomputeLineOffsets "X\nbc".data ∧
    ([0, 2] : List Nat).head? = some 0 ∧
    ([0, 2] : List Nat).length = "X\nbc".data.count '\n' + 1 := by
  refine ⟨by decide, ?_⟩
  have h := (lineIndex_invariant_c4 (initializeDocument freshState "file:///doc" "abc".data)
      "file:///doc" "abc".data
      { start := { line := 0, character := 0 }, stop := { line := 0, character := 1 } }
      "X\n".data).2
      { line_offsets := [0, 2], uri := some "file:///doc",
        text := "X\nbc".data, diagMap := [] } (by decide)
  exact h

/-- C5: the claim states calls before the initialize handshake are rejected
with NotInitialized and calls after shutdown with Shutdown.  The code has no
session state machine at all: `m_shutdown` is `return None` and never sets
`self._shutdown` (the flag written in `__init__` is never read or updated),
and no method checks any session state.  Concretely: a hover request on a
fresh (never initialized) session is processed normally, and after a
shutdown request (which provably leaves the state unchanged) a
document-open request is still processed and answered with diagnostics. -/
theorem server_c5_divergence :
    (∀ st : ServerState, handleRequest st Request.shutdownReq = some (st, Response.null)) ∧
    handleRequest initServerState (Request.hoverReq { line := 0, character := 0 })
        = some (initServerState, Response.hoverResult none) ∧
    handleRequest initServerState (Request.didOpen "file:///doc" "hi".data)
        = some ({ handler := { line_offsets := [0], uri := some "file:///doc",
                               text := "hi".data, diagMap := [] },
                  shutdown := false },
                Response.publishDiagnostics (some "file:///doc") []) := by
  refine ⟨fun st => rfl, by decide, by decide⟩

/-- C6: opening `"I are happy"` produces exactly one diagnostic, spanning
characters 0–5 of line 0 (the substring `"I are"`) with message
`"Wrong agreement: I are"`, and `run_quick_fix` on that diagnostic offers
exactly the replacements `"I am"` and `"I was"`. -/
theorem sample_c6_scenario :
    (getDiagnostics (initializeDocument freshState "file:///doc" "I are happy".data)).1
      = [{ range := { start := { line := 0, character := 0 },
                      stop := { line := 0, character := 5 } },
           severity := some DiagnosticSeverity.Error,
           message := "Wrong agreement: I are".data }] ∧
    runQuickFix (getDiagnostics (initializeDocument freshState "file:///doc" "I are happy".data)).2
        { start := { line := 0, character := 0 }, stop := { line := 0, character := 5 } }
        [{ range := { start := { line := 0, character := 0 },
                      stop := { line := 0, character := 5 } },
           severity := some DiagnosticSeverity.Error,
           message := "Wrong agreement: I are".data }]
      = some [mkQuickFixAction (some "file:///doc")
                { range := { start := { line := 0, character := 0 },
                             stop := { line := 0, character := 5 } },
                  severity := some DiagnosticSeverity.Error,
                  message := "Wrong agreement: I are".data } "I am".data,
              mkQuickFixAction (some "file:///doc")
                { range := { start := { line := 0, character := 0 },
                             stop := { line := 0, character := 5 } },
                  severity := some DiagnosticSeverity.Error,
                  message := "Wrong agreement: I are".data } "I was".data] := by
  refine ⟨by decide, by decide⟩

/-- C7 counterexample: on `"ABC 123"` the two highlights carry the type tags
`'blue'` and `'red'` (with the hover messages carrying the ALL-CAPS/numbers
classification), not `"caps"` and `"number"` as the claim states. -/
theorem highlight_c7_counterexample :
    (highlightSyntax (initializeDocument freshState "file:///doc" "ABC 123".data)).map
        SyntaxHighlight.type = ["blue", "red"] ∧
    ("blue" : String) ≠ "caps" ∧ ("red" : String) ≠ "number" := by
  refine ⟨by decide, by decide, by decide⟩

/-- C7 (amended): on `"ABC 123"`, `highlight_syntax` returns exactly two
highlights: one of type tag `'blue'` with hover message `'ALL CAPS: ABC'`
covering characters 0–3, and one of type tag `'red'` with hover message
`'numbers: 123'` covering characters 4–7. -/
theorem highlight_c7_amended :
    highlightSyntax (initializeDocument freshState "file:///doc" "ABC 123".data)
      = [{ range := { start := { line := 0, character := 0 },
                      stop := { line := 0, character := 3 } },
           type := "blue", hoverMessage := some "ALL CAPS: ABC".data },
         { range := { start := { line := 0, character := 4 },
                      stop := { line := 0, character := 7 } },
           type := "red", hoverMessage := some "numbers: 123".data }] := by
  decide

/-! ## Lemmas for completion -/

theorem pySplit_all_whitespace (cs : List Char)
    (h : ∀ c ∈ cs, c.isWhitespace = true) : pySplit cs = [] := by
  unfold pySplit
  induction cs with
  | nil => rfl
  | cons c rest ih =>
      have hc : c.isWhitespace = true := h c (List.mem_cons_self c rest)
      simp only [pySplitAux, hc, if_true, List.isEmpty_nil]
      exact ih (fun x hx => h x (List.mem_cons_of_mem c hx))

/-- C9: whenever the cursor position resolves to an offset whose preceding
text `text[0:offset]` is empty or all whitespace (e.g. the start of the
document), `get_completion_list` hits `context.split()[-1]` on an empty
list: an uncaught `IndexError` (modelled by `none`) instead of a
`CompletionList`. -/
theorem getCompletionList_c9 (st : HandlerState) (p : Position) (off : Nat)
    (hoff : positionToOffset st p = some off)
    (hws : ∀ c ∈ st.text.take off, c.isWhitespace = true) :
    getCompletionList st p = none := by
  have hsplit : pySplit (st.text.take off) = [] := pySplit_all_whitespace _ hws
  simp [getCompletionList, hoff, hsplit]

/-- Witness for C9: a completion request at position `(0, 0)` of a fresh
(empty) document. -/
theorem getCompletionList_c9_witness :
    positionToOffset freshState { line := 0, character := 0 } = some 0 ∧
    getCompletionList freshState { line := 0, character := 0 } = none :=
  ⟨rfl, getCompletionList_c9 freshState { line := 0, character := 0 } 0 rfl (by decide)⟩

/-! ## Lemmas about word runs (for `_get_word_at`) -/

/-- A maximal run of word-constituent characters of `cs`: a nonempty span of
word characters flanked on both sides by a boundary (string edge or a
non-word character). -/
def MaximalWordRun (cs : List Char) (r : Nat × Nat) : Prop :=
  r.1 < r.2 ∧ r.2 ≤ cs.length ∧
  (∀ j, r.1 ≤ j → j < r.2 → wordChar (cs.getD j ' ') = true) ∧
  (r.1 = 0 ∨ wordChar (cs.getD (r.1 - 1) ' ') = false) ∧
  (r.2 = cs.length ∨ wordChar (cs.getD r.2 ' ') = false)

theorem getD_of_drop_cons {l : List Char} {i : Nat} {c : Char} {rest : List Char}
    (h : l.drop i = c :: rest) : l.getD i ' ' = c := by
  have h0 : l[i]? = some c := by
    simpa [h, eq_comm] using List.getElem?_drop l i 0
  simp [List.getD_eq_getElem?_getD, h0]

theorem drop_succ_of_drop_cons {l : List Char} {i : Nat} {c : Char} {rest : List Char}
    (h : l.drop i = c :: rest) : l.drop (i + 1) = rest := by
  have hd := List.drop_drop 1 i l
  rw [← hd, h]
  rfl

theorem lt_length_of_drop_cons {l : List Char} {i : Nat} {c : Char} {rest : List Char}
    (h : l.drop i = c :: rest) : i < l.length := by
  have h0 : l[i]? = some c := by
    simpa [h, eq_comm] using List.getElem?_drop l i 0
  exact (List.getElem?_eq_some.mp h0).1

/-- Soundness of the `\w+` scanner: every span it produces is a maximal word
run of the full string.  The induction is over the unscanned suffix `cs`
(which is `full.drop i`); `some s` is the state inside a run that began at
`s`. -/
theorem wordRunsAux_sound (cs : List Char) : ∀ (i : Nat) (full : List Char),
    full.drop i = cs → i ≤ full.length →
    ((i = 0 ∨ wordChar (full.getD (i - 1) ' ') = false) →
        ∀ r ∈ wordRunsAux cs i none, MaximalWordRun full r) ∧
    (∀ s, s < i → (∀ j, s ≤ j → j < i → wordChar (full.getD j ' ') = true) →
        (s = 0 ∨ wordChar (full.getD (s - 1) ' ') = false) →
        ∀ r ∈ wordRunsAux cs i (some s), MaximalWordRun full r) := by
  induction cs with
  | nil =>
      intro i full hdrop hi
      constructor
      · intro _ r hr
        simp [wordRunsAux] at hr
      · intro s hs hint hleft r hr
        simp [wordRunsAux] at hr
        subst hr
        have hlen : full.length ≤ i := List.drop_eq_nil_iff.mp hdrop
        have hieq : i = full.length := le_antisymm hlen hi |>.symm
        exact ⟨hs, le_of_eq hieq, fun j h1 h2 => hint j h1 h2, hleft, Or.inl hieq⟩
  | cons c rest ih =>
      intro i full hdrop hi
      have hhead : full.getD i ' ' = c := getD_of_drop_cons hdrop
      have hdrop' : full.drop (i + 1) = rest := drop_succ_of_drop_cons hdrop
      have hi' : i + 1 ≤ full.length := lt_length_of_drop_cons hdrop
      have IH := ih (i + 1) full hdrop' hi'
      constructor
      · intro hb r hr
        by_cases hw : wordChar c = true
        · simp only [wordRunsAux, hw, if_true] at hr
          refine IH.2 i (Nat.lt_succ_self i) ?_ hb r hr
          intro j h1 h2
          have : j = i := by omega
          rw [this, hhead]
          exact hw
        · simp only [wordRunsAux, hw] at hr
          simp at hr
          have hcfalse : wordChar (full.getD i ' ') = false := by
            rw [hhead]; exact Bool.eq_false_iff.mpr hw
          exact IH.1 (Or.inr hcfalse) r hr
      · intro s hs hint hleft r hr
        by_cases hw : wordChar c = true
        · simp only [wordRunsAux, hw, if_true] at hr
          refine IH.2 s (by omega) ?_ hleft r hr
          intro j h1 h2
          rcases Nat.lt_or_ge j i with hj | hj
          · exact hint j h1 hj
          · have : j = i := by omega
            rw [this, hhead]
            exact hw
        · simp only [wordRunsAux, hw] at hr
          simp at hr
          have hcfalse : wordChar (full.getD i ' ') = false := by
            rw [hhead]; exact Bool.eq_false_iff.mpr hw
          rcases hr with hr | hr
          · subst hr
            exact ⟨hs, by omega, fun j h1 h2 => hint j h1 h2, hleft, Or.inr hcfalse⟩
          · exact IH.1 (Or.inr hcfalse) r hr

/-- Every span `wordRuns` produces is a maximal word run. -/
theorem wordRuns_sound (cs : List Char) :
    ∀ r ∈ wordRuns cs, MaximalWordRun cs r := by
  have h := wordRunsAux_sound cs 0 cs (by simp) (Nat.zero_le _)
  exact h.1 (Or.inl rfl)

/-- Lower bound on the start of produced spans (used for disjointness). -/
theorem wordRunsAux_lb (cs : List Char) : ∀ (i : Nat),
    (∀ r ∈ wordRunsAux cs i none, i ≤ r.1) ∧
    (∀ s, s ≤ i → ∀ r ∈ wordRunsAux cs i (some s), s ≤ r.1) := by
  induction cs with
  | nil =>
      intro i
      constructor
      · intro r hr; simp [wordRunsAux] at hr
      · intro s _ r hr
        simp [wordRunsAux] at hr
        subst hr
        exact le_refl s
  | cons c rest ih =>
      intro i
      constructor
      · intro r hr
        by_cases hw : wordChar c = true
        · simp only [wordRunsAux, hw, if_true] at hr
          exact (ih (i + 1)).2 i (Nat.le_succ i) r hr
        · simp only [wordRunsAux, hw] at hr
          simp at hr
          exact le_trans (Nat.le_succ i) ((ih (i + 1)).1 r hr)
      · intro s hs r hr
        by_cases hw : wordChar c = true
        · simp only [wordRunsAux, hw, if_true] at hr
          exact (ih (i + 1)).2 s (by omega) r hr
        · simp only [wordRunsAux, hw] at hr
          simp at hr
          rcases hr with hr | hr
          · subst hr; exact le_refl s
          · exact le_trans (by omega) ((ih (i + 1)).1 r hr)

/-- The produced spans are strictly ordered: each ends before the next
starts (so their inclusive spans are pairwise disjoint). -/
theorem wordRunsAux_pairwise (cs : List Char) : ∀ (i : Nat),
    (wordRunsAux cs i none).Pairwise (fun r1 r2 => r1.2 < r2.1) ∧
    ∀ s, (wordRunsAux cs i (some s)).Pairwise (fun r1 r2 => r1.2 < r2.1) := by
  induction cs with
  | nil =>
      intro i
      refine ⟨List.Pairwise.nil, fun s => ?_⟩
      simp [wordRunsAux]
  | cons c rest ih =>
      intro i
      constructor
      · by_cases hw : wordChar c = true
        · simp only [wordRunsAux, hw, if_true]
          exact (ih (i + 1)).2 i
        · simp only [wordRunsAux, hw]
          simp
          exact (ih (i + 1)).1
      · intro s
        by_cases hw : wordChar c = true
        · simp only [wordRunsAux, hw, if_true]
          exact (ih (i + 1)).2 s
        · simp only [wordRunsAux, hw]
          simp
          constructor
          · intro a b hab
            have hle : i + 1 ≤ a := (wordRunsAux_lb rest (i + 1)).1 (a, b) hab
            omega
          · exact (ih (i + 1)).1

/-- At most one produced span contains a given character position in its
inclusive boundaries. -/
theorem wordRuns_unique {cs : List Char} {r r' : Nat × Nat} (hr : r ∈ wordRuns cs)
    (hr' : r' ∈ wordRuns cs) (ch : Nat) (h1 : r.1 ≤ ch) (h2 : ch ≤ r.2)
    (h1' : r'.1 ≤ ch) (h2' : ch ≤ r'.2) : r = r' := by
  have hp : (wordRuns cs).Pairwise (fun r1 r2 => r1.2 < r2.1) :=
    (wordRunsAux_pairwise cs 0).1
  rw [List.pairwise_iff_getElem] at hp
  obtain ⟨a, ha, hra⟩ := List.getElem_of_mem hr
  obtain ⟨b, hb, hrb⟩ := List.getElem_of_mem hr'
  rcases Nat.lt_trichotomy a b with hab | hab | hab
  · have := hp a b ha hb hab
    rw [hra, hrb] at this
    omega
  · subst hab
    rw [← hra, ← hrb]
  · have := hp b a hb ha hab
    rw [hra, hrb] at this
    omega

/-- C8 (amended): `_get_word_at` on the line of the cursor returns the
(unique) maximal run of word characters whose span contains
`position.character` *inclusive of both boundaries* — so on a space
character immediately after a word it returns that word, not nothing — and
returns nothing when the character lies in no run's inclusive span, e.g. on
a space separated from both neighbouring words (two spaces between words):
in `"ab  cd"` at character 3 it returns nothing. -/
theorem getWordAt_c8_amended (st : HandlerState) (p : Position) (line : List Char)
    (hline : getLine st p.line = some line) :
    (∀ r ∈ wordRuns line, MaximalWordRun line r) ∧
    ((∀ r ∈ wordRuns line, ¬(r.1 ≤ p.character ∧ p.character ≤ r.2)) →
        getWordAt st p = some none) ∧
    (∀ r ∈ wordRuns line, r.1 ≤ p.character → p.character ≤ r.2 →
        getWordAt st p = some (some (sliceText line r.1 r.2))) ∧
    getWordAt (initializeDocument freshState "file:///doc" "ab  cd".data)
        { line := 0, character := 3 } = some none := by
  refine ⟨wordRuns_sound line, ?_, ?_, by decide⟩
  · intro hnone
    have hfind : (wordRuns line).find?
        (fun r => r.1 ≤ p.character && p.character ≤ r.2) = none := by
      rw [List.find?_eq_none]
      intro r hrm
      have := hnone r hrm
      simpa using this
    simp [getWordAt, hline, hfind]
  · intro r hrm hch1 hch2
    have hsome : ((wordRuns line).find?
        (fun r => r.1 ≤ p.character && p.character ≤ r.2)).isSome = true := by
      rw [List.find?_isSome]
      exact ⟨r, hrm, by simp [hch1, hch2]⟩
    obtain ⟨r0, hr0⟩ := Option.isSome_iff_exists.mp hsome
    have hr0p := List.find?_some hr0
    have hr0m := List.mem_of_find?_eq_some hr0
    simp at hr0p
    have : r0 = r :=
      wordRuns_unique hr0m hrm p.character hr0p.1 hr0p.2 hch1 hch2
    subst this
    simp [getWordAt, hline, hr0]

/-- Witness for C8 (amended): word lookup inside the word `"ab"` of
`"ab cd"`. -/
theorem getWordAt_c8_amended_witness :
    getLine (initializeDocument freshState "file:///doc" "ab cd".data) 0
        = some "ab cd".data ∧
    (0, 2) ∈ wordRuns "ab cd".data ∧
    getWordAt (initializeDocument freshState "file:///doc" "ab cd".data)
        { line := 0, character := 1 } = some (some "ab".data) := by
  refine ⟨by decide, by decide, ?_⟩
  have h := (getWordAt_c8_amended
      (initializeDocument freshState "file:///doc" "ab cd".data)
      { line := 0, character := 1 } "ab cd".data (by decide)).2.2.1
      (0, 2) (by decide) (by decide) (by decide)
  simpa [sliceText] using h

/-- C8 counterexample: position `(0, 2)` of `"ab cd"` lies on the space
character strictly between the words `"ab"` and `"cd"`, yet `_get_word_at`
returns the word `"ab"` (the span check is inclusive of `match.end()`), not
nothing as the claim states. -/
theorem getWordAt_c8_counterexample :
    (initializeDocument freshState "file:///doc" "ab cd".data).text.get? 2
        = some ' ' ∧
    wordRuns "ab cd".data = [(0, 2), (3, 5)] ∧
    getWordAt (initializeDocument freshState "file:///doc" "ab cd".data)
        { line := 0, character := 2 } = some (some "ab".data) ∧
    (some (some "ab".data) : Option (Option (List Char))) ≠ some none := by
  refine ⟨by decide, by decide, by decide, by decide⟩

/-! ## The diagnostic-to-replacements map over call sequences -/

/-- The handler operations that touch the handler state, for reasoning about
arbitrary call sequences since construction.  For `updateDoc`, the Python
`IndexError` is raised before any mutation, so on failure the state is
unchanged (`getD st`). -/
inductive HOp
  | initDoc (uri : String) (text : List Char)
  | updateDoc (rng : Range) (text : List Char)
  | runDiagnostics
deriving DecidableEq, Repr

/-- One handler call. -/
def stepOp (st : HandlerState) : HOp → HandlerState
  | .initDoc uri text => initializeDocument st uri text
  | .updateDoc rng text => (updateDocument st rng text).getD st
  | .runDiagnostics => (getDiagnostics st).2

/-- A sequence of handler calls. -/
def runOps (st : HandlerState) (ops : List HOp) : HandlerState :=
  ops.foldl stepOp st

theorem diagLookup_register (m : List (Diagnostic × List (List Char)))
    (k : Diagnostic) (v : List (List Char)) (d : Diagnostic) :
    (diagLookup (diagRegister m k v) d).isSome = true ↔
      d = k ∨ (diagLookup m d).isSome = true := by
  by_cases hk : k = d
  · subst hk
    simp [diagLookup, diagRegister, List.find?_cons]
  · have : (decide (k = d)) = false := by simp [hk]
    simp [diagLookup, diagRegister, List.find?_cons, this]
    intro h
    exact absurd h.symm hk

theorem diagLookup_register_foldl (entries : List (Diagnostic × List (List Char))) :
    ∀ (m : List (Diagnostic × List (List Char))) (d : Diagnostic),
    (diagLookup (entries.foldl (fun m p => diagRegister m p.1 p.2) m) d).isSome = true ↔
      d ∈ entries.map Prod.fst ∨ (diagLookup m d).isSome = true := by
  induction entries with
  | nil => intro m d; simp
  | cons e rest ih =>
      intro m d
      simp only [List.foldl_cons, List.map_cons, List.mem_cons]
      rw [ih, diagLookup_register]
      tauto

theorem stepOp_diagMap_init (st : HandlerState) (uri : String) (text : List Char) :
    (stepOp st (.initDoc uri text)).diagMap = st.diagMap := rfl

theorem stepOp_diagMap_update (st : HandlerState) (rng : Range) (t : List Char) :
    (stepOp st (.updateDoc rng t)).diagMap = st.diagMap := by
  unfold stepOp updateDocument
  cases h1 : positionToOffset st rng.start <;> cases h2 : positionToOffset st rng.stop <;>
    simp [h1, h2]

theorem stepOp_diagMap_diag (st : HandlerState) :
    (stepOp st .runDiagnostics).diagMap
      = (diagEntries st.text).foldl (fun m p => diagRegister m p.1 p.2) st.diagMap := rfl

/-- Splitting an occurrence of `x` inside `a :: tl`: either `a` is the
occurrence (with empty prefix), or the occurrence is inside `tl`. -/
theorem cons_append_split {α : Type} (a x : α) (tl : List α) (Q : List α → Prop) :
    (∃ pre post, a :: tl = pre ++ x :: post ∧ Q pre) ↔
      (a = x ∧ Q []) ∨ ∃ pre post, tl = pre ++ x :: post ∧ Q (a :: pre) := by
  constructor
  · rintro ⟨pre, post, heq, hq⟩
    cases pre with
    | nil =>
        simp at heq
        exact Or.inl ⟨heq.1, hq⟩
    | cons b pre' =>
        simp at heq
        refine Or.inr ⟨pre', post, heq.2, ?_⟩
        rw [heq.1]
        exact hq
  · rintro (⟨ha, hq⟩ | ⟨pre, post, heq, hq⟩)
    · exact ⟨[], tl, by simp [ha], hq⟩
    · exact ⟨a :: pre, post, by simp [heq], hq⟩

/-- The key of the map after a call sequence: a diagnostic is looked up
successfully exactly when some `get_diagnostics` call in the sequence
registered it (or it was present initially). -/
theorem runOps_diagMap_spec (ops : List HOp) : ∀ (st : HandlerState) (d : Diagnostic),
    (diagLookup (runOps st ops).diagMap d).isSome = true ↔
      (∃ pre post, ops = pre ++ HOp.runDiagnostics :: post ∧
          d ∈ (diagEntries (runOps st pre).text).map Prod.fst) ∨
      (diagLookup st.diagMap d).isSome = true := by
  induction ops with
  | nil =>
      intro st d
      simp only [runOps, List.foldl_nil]
      constructor
      · exact Or.inr
      · rintro (⟨pre, post, heq, _⟩ | h)
        · exact absurd heq (by simp)
        · exact h
  | cons op tl ih =>
      intro st d
      have hstep : runOps st (op :: tl) = runOps (stepOp st op) tl := rfl
      rw [hstep, ih]
      rw [cons_append_split op HOp.runDiagnostics tl
        (fun pre => d ∈ (diagEntries (runOps st pre).text).map Prod.fst)]
      cases op with
      | initDoc uri text =>
          rw [stepOp_diagMap_init]
          constructor
          · rintro (⟨pre, post, heq, hmem⟩ | h)
            · exact Or.inl (Or.inr ⟨pre, post, heq, hmem⟩)
            · exact Or.inr h
          · rintro ((⟨hax, _⟩ | ⟨pre, post, heq, hmem⟩) | h)
            · exact absurd hax (by simp)
            · exact Or.inl ⟨pre, post, heq, hmem⟩
            · exact Or.inr h
      | updateDoc rng t =>
          rw [stepOp_diagMap_update]
          constructor
          · rintro (⟨pre, post, heq, hmem⟩ | h)
            · exact Or.inl (Or.inr ⟨pre, post, heq, hmem⟩)
            · exact Or.inr h
          · rintro ((⟨hax, _⟩ | ⟨pre, post, heq, hmem⟩) | h)
            · exact absurd hax (by simp)
            · exact Or.inl ⟨pre, post, heq, hmem⟩
            · exact Or.inr h
      | runDiagnostics =>
          rw [stepOp_diagMap_diag, diagLookup_register_foldl]
          constructor
          · rintro (⟨pre, post, heq, hmem⟩ | h | h)
            · exact Or.inl (Or.inr ⟨pre, post, heq, hmem⟩)
            · exact Or.inl (Or.inl ⟨rfl, h⟩)
            · exact Or.inr h
          · rintro ((⟨_, hmem⟩ | ⟨pre, post, heq, hmem⟩) | h)
            · exact Or.inr (Or.inl hmem)
            · exact Or.inl ⟨pre, post, heq, hmem⟩
            · exact Or.inr (Or.inr h)

theorem runQuickFix_isSome_iff (st : HandlerState) (rng : Range) (d : Diagnostic) :
    (runQuickFix st rng [d]).isSome = true ↔
      (diagLookup st.diagMap d).isSome = true := by
  unfold runQuickFix
  cases h : diagLookup st.diagMap d <;>
    simp [List.mapM, List.mapM.loop, h]

/-- C10: starting from a freshly constructed sample handler, `run_quick_fix`
on a diagnostic succeeds exactly when a diagnostic with equal field values
was registered by some earlier `get_diagnostics` call: the map is keyed by
field-value equality and entries are never removed (any earlier registering
pass suffices, regardless of later passes); for a never-registered
diagnostic the lookup fails — the uncaught `KeyError`, modelled by `none`. -/
theorem runQuickFix_c10 (ops : List HOp) (rng : Range) (d : Diagnostic) :
    (runQuickFix (runOps freshState ops) rng [d]).isSome = true ↔
      ∃ pre post, ops = pre ++ HOp.runDiagnostics :: post ∧
        d ∈ (diagEntries (runOps freshState pre).text).map Prod.fst := by
  rw [runQuickFix_isSome_iff, runOps_diagMap_spec]
  have hfresh : (diagLookup freshState.diagMap d).isSome = false := rfl
  simp [hfresh]

end Teaspn
